import Mathlib

/-!
Shallow embedding of the indicator pipeline of `src/main.py` (a Streamlit
stock-market dashboard) and proofs about it.

The numeric cells of a pandas Series are modelled by the type `EF`: either a
rational number, one of the two infinities, or the not-a-number sentinel that
pandas/NumPy arithmetic produces (e.g. on `0/0` or on a rolling window that is
not yet full).  Exact rational arithmetic stands in for IEEE doubles; the
NaN/infinity propagation rules of the float operations used by the script are
modelled explicitly.
-/

namespace StockMarket

/-- Extended value: a rational, positive or negative infinity, or the
not-a-number sentinel of float arithmetic. -/
inductive EF where
  | nan : EF
  | inf : EF
  | ninf : EF
  | val : ℚ → EF
deriving DecidableEq, Repr

namespace EF

/-- Addition with float-style NaN/infinity propagation. -/
def add : EF → EF → EF
  | nan, _ => nan
  | _, nan => nan
  | inf, ninf => nan
  | ninf, inf => nan
  | inf, _ => inf
  | _, inf => inf
  | ninf, _ => ninf
  | _, ninf => ninf
  | val a, val b => val (a + b)

/-- Negation. -/
def neg : EF → EF
  | nan => nan
  | inf => ninf
  | ninf => inf
  | val a => val (-a)

/-- Subtraction, as `a + (-b)`. -/
def sub (a b : EF) : EF := add a (neg b)

/-- Division with float semantics: `0/0` is NaN, `a/0` for `a > 0` is `+inf`,
for `a < 0` is `-inf`; a finite value divided by an infinity is `0`. -/
def div : EF → EF → EF
  | nan, _ => nan
  | _, nan => nan
  | inf, inf => nan
  | inf, ninf => nan
  | ninf, inf => nan
  | ninf, ninf => nan
  | inf, val b => if b < 0 then ninf else inf
  | ninf, val b => if b < 0 then inf else ninf
  | val _, inf => val 0
  | val _, ninf => val 0
  | val a, val b =>
      if b = 0 then (if a = 0 then nan else if 0 < a then inf else ninf)
      else val (a / b)

/-- pandas `Series.clip(lower=c)`: NaN passes through. -/
def clipLower (c : ℚ) : EF → EF
  | nan => nan
  | inf => inf
  | ninf => val c
  | val a => val (max a c)

/-- pandas `Series.clip(upper=c)`: NaN passes through. -/
def clipUpper (c : ℚ) : EF → EF
  | nan => nan
  | inf => val c
  | ninf => ninf
  | val a => val (min a c)

end EF

/-- Sum of a list of extended values (NaN and infinities propagate as they do
in a NumPy window sum). -/
def efSum (xs : List EF) : EF := xs.foldr EF.add (EF.val 0)

/-- pandas `Series.rolling(window=w).mean()` with the default
`min_periods = w`: the entry at position `i` is NaN until a full window of `w`
observations is available, and a NaN inside the window makes the result NaN. -/
def rollingMean (w : Nat) (xs : List EF) : List EF :=
  (List.range xs.length).map fun i =>
    if i + 1 < w then EF.nan
    else EF.div (efSum ((xs.drop (i + 1 - w)).take w)) (EF.val (w : ℚ))

/-- pandas `Series.diff()`: NaN at position 0, then pairwise differences
`x[i] - x[i-1]`. -/
def diff : List EF → List EF
  | [] => []
  | x :: xs => EF.nan :: List.zipWith EF.sub xs (x :: xs)

/-- Shallow embedding of `compute_rsi` (src/main.py lines 54-59):
`delta = series.diff()`, `gain = delta.clip(lower=0).rolling(period).mean()`,
`loss = -delta.clip(upper=0).rolling(period).mean()` (the unary minus applies
to the rolling mean), `rs = gain / loss`, result `100 - 100/(1 + rs)`. -/
def compute_rsi (series : List ℚ) (period : Nat := 14) : List EF :=
  let s := series.map EF.val
  let delta := diff s
  let gain := rollingMean period (delta.map (EF.clipLower 0))
  let loss := (rollingMean period (delta.map (EF.clipUpper 0))).map EF.neg
  let rs := List.zipWith EF.div gain loss
  rs.map fun r => (EF.val 100).sub ((EF.val 100).div ((EF.val 1).add r))

/-- Recursion step of the seeded exponential moving average:
`y[i] = a * x[i] + (1 - a) * y[i-1]` with `prev` the previous output. -/
def emaGo (a : ℚ) (prev : ℚ) : List ℚ → List ℚ
  | [] => []
  | x :: xs => (a * x + (1 - a) * prev) :: emaGo a (a * x + (1 - a) * prev) xs

/-- pandas `Series.ewm(span=span, adjust=False).mean()`: seeded with the first
observation, then the recursive exponentially weighted mean with smoothing
factor `a = 2 / (span + 1)`. -/
def ema (span : Nat) : List ℚ → List ℚ
  | [] => []
  | x :: xs => x :: emaGo (2 / ((span : ℚ) + 1)) x xs

/-- The `SMA_50` column formula applied to one symbol's close series
(src/main.py line 109). -/
def SMA_50 (close : List ℚ) : List EF := rollingMean 50 (close.map EF.val)

/-- The `SMA_200` column formula applied to one symbol's close series
(src/main.py line 110). -/
def SMA_200 (close : List ℚ) : List EF := rollingMean 200 (close.map EF.val)

/-- The `MACD` column formula applied to one symbol's close series
(src/main.py lines 112-114): the span-12 EMA minus the span-26 EMA. -/
def MACD (close : List ℚ) : List ℚ :=
  List.zipWith (fun a b => a - b) (ema 12 close) (ema 26 close)

/-- One row of the preprocessed table: a symbol, a date (modelled as an
integer since only its order matters), and the close price. -/
structure Row where
  symbol : String
  date : Int
  close : ℚ
deriving DecidableEq, Repr

/-- The close series of the rows of symbol `s`, in table order: the series on
which `df.groupby('Symbol')['Close']` evaluates the transform for group `s`. -/
def symbolCloses (t : List Row) (s : String) : List ℚ :=
  (t.filter fun r => r.symbol == s).map Row.close

/-- Worker for the groupby transform: walks the rows in order, and for each
row emits the group result of its symbol at the row's position within its
group, counting positions with `cnt`. -/
def transformGo (vals : String → List EF) (cnt : String → Nat) : List Row → List EF
  | [] => []
  | r :: rs =>
      (vals r.symbol).getD (cnt r.symbol) EF.nan ::
        transformGo vals (fun s => if s = r.symbol then cnt s + 1 else cnt s) rs

/-- pandas `df.groupby('Symbol')['Close'].transform(f)`: `f` is applied to each
symbol's close series and the group results are broadcast back to the original
row positions. -/
def transform (f : List ℚ → List EF) (t : List Row) : List EF :=
  transformGo (fun s => f (symbolCloses t s)) (fun _ => 0) t

/-- The `SMA_50` column over the whole table (src/main.py line 109). -/
def SMA50col (t : List Row) : List EF := transform SMA_50 t

/-- The `SMA_200` column over the whole table (src/main.py line 110). -/
def SMA200col (t : List Row) : List EF := transform SMA_200 t

/-- The `RSI` column over the whole table (src/main.py line 111). -/
def RSIcol (t : List Row) : List EF := transform (fun xs => compute_rsi xs) t

/-- The `ema_12` helper column (src/main.py line 112). -/
def ema12col (t : List Row) : List EF := transform (fun xs => (ema 12 xs).map EF.val) t

/-- The `ema_26` helper column (src/main.py line 113). -/
def ema26col (t : List Row) : List EF := transform (fun xs => (ema 26 xs).map EF.val) t

/-- The `MACD` column over the whole table (src/main.py line 114): the
row-aligned difference of the two EMA columns. -/
def MACDcol (t : List Row) : List EF := List.zipWith EF.sub (ema12col t) (ema26col t)

/-- The values of column `vs` on the rows of symbol `s`, in table order. -/
def restrictVals (t : List Row) (vs : List EF) (s : String) : List EF :=
  ((t.zip vs).filter fun p => p.1.symbol == s).map Prod.snd

/-- Shallow embedding of `filtered_df` (src/main.py line 128): keep the rows
whose symbol is selected and whose date lies in the inclusive range. -/
def filtered_df (t : List Row) (symbols : List String) (startDate endDate : Int) : List Row :=
  t.filter fun r =>
    symbols.contains r.symbol && decide (startDate ≤ r.date) && decide (r.date ≤ endDate)

/-- A raw loaded table: rows of optional cells (`none` models a missing
value / NaN as seen by `fillna` and `dropna`). -/
abbrev RawTable := List (List (Option ℚ))

/-- Forward-fill one row from the carried last-seen values, column by
column. -/
def ffillRow (carry row : List (Option ℚ)) : List (Option ℚ) :=
  List.zipWith (fun v c => v.orElse fun _ => c) row carry

/-- Worker for `ffill`: the carry holds, per column, the last non-missing
value seen so far. -/
def ffillGo (carry : List (Option ℚ)) : RawTable → RawTable
  | [] => []
  | r :: rs => ffillRow carry r :: ffillGo (ffillRow carry r) rs

/-- pandas `df.fillna(method='ffill')` on a table of `ncols` columns: each
column is forward-filled independently, top to bottom. -/
def ffill (ncols : Nat) (t : RawTable) : RawTable :=
  ffillGo (List.replicate ncols none) t

/-- pandas `df.dropna()` with the default `how='any'`: keep exactly the rows
in which every cell is present. -/
def dropna (t : RawTable) : RawTable :=
  t.filter fun r => r.all fun c => c.isSome

/-- The preprocessing of src/main.py lines 103-104: forward-fill, then drop
the rows that still contain a missing value. -/
def preprocess (ncols : Nat) (t : RawTable) : RawTable := dropna (ffill ncols t)

/-- Shallow embedding of the data-loading branch (src/main.py lines 91-100):
use the uploaded file if present, else the local `Nifty_Stocks.csv` if
present, else halt with the user-visible warning message. -/
def loadData (uploaded localFile : Option RawTable) : Except String RawTable :=
  match uploaded with
  | some f => Except.ok f
  | none =>
      match localFile with
      | some f => Except.ok f
      | none => Except.error "⚠️ Please upload a CSV file to continue."

/-- The script from loading through preprocessing: on a successful load the
table is preprocessed; on a failed load the script halts (`st.stop`) and no
processing of any kind runs. -/
def runApp (ncols : Nat) (uploaded localFile : Option RawTable) : Except String RawTable :=
  match loadData uploaded localFile with
  | Except.error m => Except.error m
  | Except.ok t => Except.ok (preprocess ncols t)

/-- Per-step price deltas, from the spec wording `d[i] = close[i] - close[i-1]`
(position `j` of this list is `d[j+1]`). -/
def deltas (xs : List ℚ) : List ℚ := List.zipWith (fun a b => a - b) xs.tail xs

/-- The trailing 14-delta window ending at row index `i` (the deltas
`d[i-13] .. d[i]`), from the spec wording for RSI. -/
def deltaWindow (xs : List ℚ) (i : Nat) : List ℚ :=
  ((deltas xs).drop (i - 14)).take 14

/-- Spec wording: `avg_gain[i]`, the simple rolling mean of
`gain[j] = max(d[j], 0)` over the trailing 14 deltas. -/
def avgGain (xs : List ℚ) (i : Nat) : ℚ :=
  ((deltaWindow xs i).map fun d => max d 0).sum / 14

/-- Spec wording: `avg_loss[i]`, the simple rolling mean of
`loss[j] = max(-d[j], 0)` over the trailing 14 deltas. -/
def avgLoss (xs : List ℚ) (i : Nat) : ℚ :=
  ((deltaWindow xs i).map fun d => max (-d) 0).sum / 14

/-- Spec wording for the RSI result: `rs = avg_gain / avg_loss` and
`rsi = 100 - 100/(1 + rs)`, evaluated with float division semantics. -/
def rsiFromAvgs (g l : ℚ) : EF :=
  (EF.val 100).sub ((EF.val 100).div ((EF.val 1).add (EF.div (EF.val g) (EF.val l))))

section Lemmas

open List

lemma length_rollingMean (w : Nat) (xs : List EF) :
    (rollingMean w xs).length = xs.length := by
  simp [rollingMean]

lemma length_diff (xs : List EF) : (diff xs).length = xs.length := by
  cases xs with
  | nil => rfl
  | cons x t => simp [diff]

lemma length_compute_rsi (xs : List ℚ) : (compute_rsi xs).length = xs.length := by
  simp [compute_rsi, length_rollingMean, length_diff]

lemma length_emaGo (a p : ℚ) (l : List ℚ) : (emaGo a p l).length = l.length := by
  induction l generalizing p with
  | nil => rfl
  | cons x t ih => simp [emaGo, ih]

lemma length_ema (span : Nat) (xs : List ℚ) : (ema span xs).length = xs.length := by
  cases xs with
  | nil => rfl
  | cons x t => simp [ema, length_emaGo]

lemma length_MACD (xs : List ℚ) : (MACD xs).length = xs.length := by
  simp [MACD, length_ema]

lemma getD_map_in {α β : Type} (f : α → β) (l : List α) (d : α) (e : β) (i : Nat)
    (hi : i < l.length) :
    (l.map f).getD i e = f (l.getD i d) := by
  rw [List.getD_eq_getElem?_getD, List.getD_eq_getElem?_getD,
    List.getElem?_eq_getElem hi, List.getElem?_eq_getElem (by simpa using hi)]
  simp

lemma getD_zipWith_in {α : Type} (f : α → α → α) (a b : List α) (d : α) (i : Nat)
    (ha : i < a.length) (hb : i < b.length) :
    (List.zipWith f a b).getD i d = f (a.getD i d) (b.getD i d) := by
  have hz : i < (List.zipWith f a b).length := by
    simp only [List.length_zipWith]
    omega
  rw [List.getD_eq_getElem?_getD, List.getD_eq_getElem?_getD, List.getD_eq_getElem?_getD,
    List.getElem?_eq_getElem hz, List.getElem?_eq_getElem ha, List.getElem?_eq_getElem hb]
  simp

lemma rollingMean_getD (w : Nat) (xs : List EF) (i : Nat) (hi : i < xs.length) :
    (rollingMean w xs).getD i EF.nan =
      if i + 1 < w then EF.nan
      else EF.div (efSum ((xs.drop (i + 1 - w)).take w)) (EF.val (w : ℚ)) := by
  have h : i < (List.range xs.length).length := by simpa using hi
  rw [rollingMean, getD_map_in _ _ 0 _ _ h, List.getD_eq_getElem?_getD,
    List.getElem?_eq_getElem h]
  simp

lemma efSum_map_val (l : List ℚ) : efSum (l.map EF.val) = EF.val l.sum := by
  induction l with
  | nil => rfl
  | cons x t ih => simp [efSum, EF.add, ih] at ih ⊢; simp [efSum, EF.add, ih]

lemma zipWith_sub_map_val (a b : List ℚ) :
    List.zipWith EF.sub (a.map EF.val) (b.map EF.val) =
      (List.zipWith (fun p q => p - q) a b).map EF.val := by
  induction a generalizing b with
  | nil => simp
  | cons x t ih =>
      cases b with
      | nil => simp
      | cons y s => simp [EF.sub, EF.neg, EF.add, sub_eq_add_neg, ih]

lemma diff_map_val (x : ℚ) (t : List ℚ) :
    diff ((x :: t).map EF.val) = EF.nan :: (deltas (x :: t)).map EF.val := by
  have h := zipWith_sub_map_val t (x :: t)
  simp only [List.map_cons] at h
  simp [diff, deltas, h]

lemma map_val_clipLower (c : ℚ) (l : List ℚ) :
    (l.map EF.val).map (EF.clipLower c) = (l.map fun a => max a c).map EF.val := by
  induction l with
  | nil => rfl
  | cons x t ih => simp [EF.clipLower, ih]

lemma map_val_clipUpper (c : ℚ) (l : List ℚ) :
    (l.map EF.val).map (EF.clipUpper c) = (l.map fun a => min a c).map EF.val := by
  induction l with
  | nil => rfl
  | cons x t ih => simp [EF.clipUpper, ih]

lemma sum_map_max_neg (l : List ℚ) :
    (l.map fun d => max (-d) 0).sum = -((l.map fun d => min d 0).sum) := by
  induction l with
  | nil => simp
  | cons x t ih =>
      have hx : max (-x) 0 = -(min x 0) := by
        rcases le_total x 0 with h | h
        · rw [min_eq_left h, max_eq_left (neg_nonneg.mpr h)]
        · rw [min_eq_right h, max_eq_right (neg_nonpos.mpr h), neg_zero]
      simp only [List.map_cons, List.sum_cons, hx, ih]
      ring

lemma deltas_length (x : ℚ) (t : List ℚ) : (deltas (x :: t)).length = t.length := by
  simp only [deltas, List.tail_cons, List.length_zipWith, List.length_cons]
  omega

lemma gain_list_eq (x : ℚ) (t : List ℚ) :
    (diff ((x :: t).map EF.val)).map (EF.clipLower 0)
      = EF.nan :: ((deltas (x :: t)).map fun a => max a 0).map EF.val := by
  rw [diff_map_val]
  simp only [List.map_cons, map_val_clipLower, EF.clipLower]

lemma loss_list_eq (x : ℚ) (t : List ℚ) :
    (diff ((x :: t).map EF.val)).map (EF.clipUpper 0)
      = EF.nan :: ((deltas (x :: t)).map fun a => min a 0).map EF.val := by
  rw [diff_map_val]
  simp only [List.map_cons, map_val_clipUpper, EF.clipUpper]

lemma compute_rsi_getD_pointwise (xs : List ℚ) (i : Nat) (hi : i < xs.length) :
    (compute_rsi xs).getD i EF.nan =
      (EF.val 100).sub ((EF.val 100).div ((EF.val 1).add
        (EF.div
          ((rollingMean 14 ((diff (xs.map EF.val)).map (EF.clipLower 0))).getD i EF.nan)
          (EF.neg ((rollingMean 14 ((diff (xs.map EF.val)).map (EF.clipUpper 0))).getD i
            EF.nan))))) := by
  have hG : (rollingMean 14 ((diff (xs.map EF.val)).map (EF.clipLower 0))).length
      = xs.length := by
    simp [length_rollingMean, length_diff]
  have hL : (rollingMean 14 ((diff (xs.map EF.val)).map (EF.clipUpper 0))).length
      = xs.length := by
    simp [length_rollingMean, length_diff]
  simp only [compute_rsi]
  rw [getD_map_in _ _ EF.nan EF.nan i
    (by simp only [List.length_zipWith, List.length_map, hG, hL]; omega)]
  rw [getD_zipWith_in EF.div _ _ EF.nan i (by rw [hG]; exact hi)
    (by rw [List.length_map, hL]; exact hi)]
  rw [getD_map_in EF.neg _ EF.nan EF.nan i (by rw [hL]; exact hi)]

lemma gain_getD_low (x : ℚ) (t : List ℚ) (i : Nat) (h14 : i < 14) (hi : i < t.length + 1) :
    (rollingMean 14 ((diff ((x :: t).map EF.val)).map (EF.clipLower 0))).getD i EF.nan
      = EF.nan := by
  rw [gain_list_eq]
  have hlen : i < (EF.nan :: ((deltas (x :: t)).map fun a => max a 0).map EF.val).length := by
    simp [deltas_length x t]
    omega
  rw [rollingMean_getD _ _ _ hlen]
  by_cases h : i + 1 < 14
  · simp [h]
  · have h13 : i = 13 := by omega
    subst h13
    rw [if_neg h]
    norm_num
    simp [efSum, EF.add, EF.div]

lemma gain_getD_high (x : ℚ) (t : List ℚ) (i : Nat) (h14 : 14 ≤ i) (hi : i < t.length + 1) :
    (rollingMean 14 ((diff ((x :: t).map EF.val)).map (EF.clipLower 0))).getD i EF.nan
      = EF.val (avgGain (x :: t) i) := by
  rw [gain_list_eq]
  have hlen : i < (EF.nan :: ((deltas (x :: t)).map fun a => max a 0).map EF.val).length := by
    simp [deltas_length x t]
    omega
  rw [rollingMean_getD _ _ _ hlen, if_neg (by omega)]
  have hidx : i + 1 - 14 = (i - 14) + 1 := by omega
  rw [hidx, List.drop_succ_cons]
  rw [show (((deltas (x :: t)).map fun a => max a 0).map EF.val).drop (i - 14)
        = (((deltas (x :: t)).drop (i - 14)).map fun a => max a 0).map EF.val by
      simp [List.map_drop]]
  rw [show ((((deltas (x :: t)).drop (i - 14)).map fun a => max a 0).map EF.val).take 14
        = ((((deltas (x :: t)).drop (i - 14)).take 14).map fun a => max a 0).map EF.val by
      simp [List.map_take]]
  rw [efSum_map_val]
  norm_num [EF.div, avgGain, deltaWindow]

lemma loss_getD_high (x : ℚ) (t : List ℚ) (i : Nat) (h14 : 14 ≤ i) (hi : i < t.length + 1) :
    EF.neg ((rollingMean 14 ((diff ((x :: t).map EF.val)).map (EF.clipUpper 0))).getD i EF.nan)
      = EF.val (avgLoss (x :: t) i) := by
  rw [loss_list_eq]
  have hlen : i < (EF.nan :: ((deltas (x :: t)).map fun a => min a 0).map EF.val).length := by
    simp [deltas_length x t]
    omega
  rw [rollingMean_getD _ _ _ hlen, if_neg (by omega)]
  have hidx : i + 1 - 14 = (i - 14) + 1 := by omega
  rw [hidx, List.drop_succ_cons]
  rw [show (((deltas (x :: t)).map fun a => min a 0).map EF.val).drop (i - 14)
        = (((deltas (x :: t)).drop (i - 14)).map fun a => min a 0).map EF.val by
      simp [List.map_drop]]
  rw [show ((((deltas (x :: t)).drop (i - 14)).map fun a => min a 0).map EF.val).take 14
        = ((((deltas (x :: t)).drop (i - 14)).take 14).map fun a => min a 0).map EF.val by
      simp [List.map_take]]
  rw [efSum_map_val]
  have hq : avgLoss (x :: t) i
      = -(((((deltas (x :: t)).drop (i - 14)).take 14).map fun a => min a 0).sum / 14) := by
    rw [avgLoss, deltaWindow, sum_map_max_neg, neg_div]
  rw [hq]
  norm_num [EF.div, EF.neg]

lemma compute_rsi_getD (xs : List ℚ) (i : Nat) (hi : i < xs.length) :
    (compute_rsi xs).getD i EF.nan =
      if i < 14 then EF.nan else rsiFromAvgs (avgGain xs i) (avgLoss xs i) := by
  cases xs with
  | nil => simp at hi
  | cons x t =>
    have hi2 : i < t.length + 1 := by simpa using hi
    rw [compute_rsi_getD_pointwise _ _ hi]
    by_cases h14 : i < 14
    · rw [gain_getD_low x t i h14 hi2, if_pos h14]
      simp [EF.div, EF.add, EF.sub, EF.neg]
    · rw [gain_getD_high x t i (by omega) hi2, loss_getD_high x t i (by omega) hi2,
        if_neg h14]
      rfl

lemma rollingMean_map_val_getD (w : Nat) (hw : w ≠ 0) (xs : List ℚ) (i : Nat)
    (hi : i < xs.length) :
    (rollingMean w (xs.map EF.val)).getD i EF.nan =
      if i + 1 < w then EF.nan
      else EF.val (((xs.drop (i + 1 - w)).take w).sum / (w : ℚ)) := by
  rw [rollingMean_getD _ _ _ (by simpa using hi)]
  by_cases h : i + 1 < w
  · simp [h]
  · rw [if_neg h, if_neg h]
    rw [show (xs.map EF.val).drop (i + 1 - w) = (xs.drop (i + 1 - w)).map EF.val by
        simp [List.map_drop],
      show ((xs.drop (i + 1 - w)).map EF.val).take w = ((xs.drop (i + 1 - w)).take w).map EF.val by
        simp [List.map_take],
      efSum_map_val]
    have hw2 : ((w : ℚ)) ≠ 0 := Nat.cast_ne_zero.mpr hw
    simp [EF.div, hw2]

lemma emaGo_getD (a : ℚ) (l : List ℚ) (p : ℚ) (i : Nat) (hi : i < l.length) :
    (emaGo a p l).getD i 0 = a * l.getD i 0 + (1 - a) * ((p :: emaGo a p l).getD i 0) := by
  induction l generalizing p i with
  | nil => simp at hi
  | cons x tl ih =>
    cases i with
    | zero => simp [emaGo]
    | succ j =>
      have hj : j < tl.length := by simpa using hi
      simp only [emaGo, List.getD_cons_succ]
      exact ih (a * x + (1 - a) * p) j hj

lemma ema_getD_zero (span : Nat) (xs : List ℚ) (h : xs ≠ []) :
    (ema span xs).getD 0 0 = xs.getD 0 0 := by
  cases xs with
  | nil => simp at h
  | cons x t => simp [ema]

lemma ema_getD_succ (span : Nat) (xs : List ℚ) (i : Nat) (hi : i + 1 < xs.length) :
    (ema span xs).getD (i + 1) 0 =
      (2 / ((span : ℚ) + 1)) * xs.getD (i + 1) 0
        + (1 - 2 / ((span : ℚ) + 1)) * (ema span xs).getD i 0 := by
  cases xs with
  | nil => simp at hi
  | cons x t =>
    have ht : i < t.length := by simpa using hi
    simp only [ema, List.getD_cons_succ]
    exact emaGo_getD _ t x i ht

lemma MACD_getD (xs : List ℚ) (i : Nat) (hi : i < xs.length) :
    (MACD xs).getD i 0 = (ema 12 xs).getD i 0 - (ema 26 xs).getD i 0 := by
  rw [MACD, getD_zipWith_in _ _ _ 0 i (by rw [length_ema]; exact hi)
    (by rw [length_ema]; exact hi)]

lemma length_transformGo (vals : String → List EF) (cnt : String → Nat) (t : List Row) :
    (transformGo vals cnt t).length = t.length := by
  induction t generalizing cnt with
  | nil => rfl
  | cons r rs ih => simp [transformGo, ih]

lemma length_transform (f : List ℚ → List EF) (t : List Row) :
    (transform f t).length = t.length := length_transformGo _ _ t

lemma restrictVals_cons (r : Row) (rs : List Row) (v : EF) (vs : List EF) (S : String) :
    restrictVals (r :: rs) (v :: vs) S =
      if r.symbol = S then v :: restrictVals rs vs S else restrictVals rs vs S := by
  by_cases hS : r.symbol = S
  · simp [restrictVals, List.filter_cons, hS]
  · simp [restrictVals, List.filter_cons, hS]

lemma range_map_getD_shift (l : List EF) (m k : Nat) :
    (List.range (k + 1)).map (fun j => l.getD (m + j) EF.nan)
      = l.getD m EF.nan :: (List.range k).map (fun j => l.getD (m + 1 + j) EF.nan) := by
  rw [List.range_succ_eq_map, List.map_cons, List.map_map]
  refine congrArg₂ List.cons (by simp) ?t
  refine List.map_congr_left ?f2
  intro j hj
  simp only [Function.comp_apply]
  congr 1
  omega

lemma restrict_transformGo (vals : String → List EF) (S : String) (t : List Row) :
    ∀ cnt : String → Nat,
      restrictVals t (transformGo vals cnt t) S
        = (List.range ((t.filter fun r => r.symbol == S).length)).map
            fun j => (vals S).getD (cnt S + j) EF.nan := by
  induction t with
  | nil => intro cnt; simp [restrictVals, transformGo]
  | cons r rs ih =>
    intro cnt
    rw [show transformGo vals cnt (r :: rs)
          = (vals r.symbol).getD (cnt r.symbol) EF.nan ::
              transformGo vals (fun s => if s = r.symbol then cnt s + 1 else cnt s) rs from rfl,
      restrictVals_cons]
    by_cases hS : r.symbol = S
    · rw [if_pos hS]
      have ihx := ih (fun s => if s = r.symbol then cnt s + 1 else cnt s)
      have hc : (if S = r.symbol then cnt S + 1 else cnt S) = cnt S + 1 := if_pos hS.symm
      simp only [hc] at ihx
      rw [ihx, List.filter_cons_of_pos (by simp [hS]), List.length_cons,
        range_map_getD_shift]
      refine congrArg₂ List.cons ?h rfl
      rw [hS]
    · rw [if_neg hS]
      have ihx := ih (fun s => if s = r.symbol then cnt s + 1 else cnt s)
      have hc : (if S = r.symbol then cnt S + 1 else cnt S) = cnt S :=
        if_neg (fun h => hS h.symm)
      simp only [hc] at ihx
      rw [ihx, List.filter_cons_of_neg (by simp [hS])]

lemma restrict_transform (f : List ℚ → List EF) (t : List Row) (S : String) :
    restrictVals t (transform f t) S
      = (List.range ((t.filter fun r => r.symbol == S).length)).map
          fun j => (f (symbolCloses t S)).getD j EF.nan := by
  rw [transform, restrict_transformGo]
  simp

lemma restrict_zipWith (t : List Row) (a b : List EF) (S : String)
    (ha : a.length = t.length) (hb : b.length = t.length) :
    restrictVals t (List.zipWith EF.sub a b) S
      = List.zipWith EF.sub (restrictVals t a S) (restrictVals t b S) := by
  induction t generalizing a b with
  | nil =>
    have ha2 : a = [] := List.length_eq_zero.mp ha
    have hb2 : b = [] := List.length_eq_zero.mp hb
    subst ha2
    subst hb2
    simp [restrictVals]
  | cons r rs ih =>
    cases a with
    | nil => simp at ha
    | cons x a2 =>
      cases b with
      | nil => simp at hb
      | cons y b2 =>
        have ha2 : a2.length = rs.length := by simpa using ha
        have hb2 : b2.length = rs.length := by simpa using hb
        rw [List.zipWith_cons_cons, restrictVals_cons, restrictVals_cons, restrictVals_cons]
        by_cases hS : r.symbol = S
        · simp only [if_pos hS, List.zipWith_cons_cons, ih a2 b2 ha2 hb2]
        · simp only [if_neg hS, ih a2 b2 ha2 hb2]

lemma rsiFromAvgs_of_den (g l : ℚ) (hl : l ≠ 0) (hden : 1 + g / l ≠ 0) :
    rsiFromAvgs g l = EF.val (100 - 100 / (1 + g / l)) := by
  simp [rsiFromAvgs, EF.div, EF.add, EF.sub, EF.neg, hl, hden, sub_eq_add_neg]

end Lemmas

section Claims

/-- C1: for every symbol partition (a close series) and every 0-based index `i`,
the simple moving average with window W (50 for `SMA_50`, 200 for `SMA_200`) is
undefined (the NaN sentinel — in particular not zero and not any carried-forward
numeric value) when `i < W - 1`, and equals the arithmetic mean of
`close[i-W+1 .. i]` when `i ≥ W - 1`. -/
theorem C1_sma_window (xs : List ℚ) (i : Nat) (hi : i < xs.length) :
    ((i + 1 < 50 → (SMA_50 xs).getD i EF.nan = EF.nan ∧
        ∀ q : ℚ, (SMA_50 xs).getD i EF.nan ≠ EF.val q) ∧
      (50 ≤ i + 1 →
        (SMA_50 xs).getD i EF.nan = EF.val (((xs.drop (i + 1 - 50)).take 50).sum / 50))) ∧
    ((i + 1 < 200 → (SMA_200 xs).getD i EF.nan = EF.nan ∧
        ∀ q : ℚ, (SMA_200 xs).getD i EF.nan ≠ EF.val q) ∧
      (200 ≤ i + 1 →
        (SMA_200 xs).getD i EF.nan = EF.val (((xs.drop (i + 1 - 200)).take 200).sum / 200))) := by
  have h50 := rollingMean_map_val_getD 50 (by norm_num) xs i hi
  have h200 := rollingMean_map_val_getD 200 (by norm_num) xs i hi
  constructor
  · constructor
    · intro h
      have e : (SMA_50 xs).getD i EF.nan = EF.nan := by rw [SMA_50, h50, if_pos h]
      exact ⟨e, fun q => by rw [e]; simp⟩
    · intro h
      rw [SMA_50, h50, if_neg (by omega)]
      norm_num
  · constructor
    · intro h
      have e : (SMA_200 xs).getD i EF.nan = EF.nan := by rw [SMA_200, h200, if_pos h]
      exact ⟨e, fun q => by rw [e]; simp⟩
    · intro h
      rw [SMA_200, h200, if_neg (by omega)]
      norm_num

/-- Witness for C1: on a constant length-200 series, `SMA_50` is NaN at index 0
and `SMA_200` at index 199 equals the trailing-window mean. -/
theorem C1_sma_window_witness :
    (SMA_50 (List.replicate 200 (1 : ℚ))).getD 0 EF.nan = EF.nan ∧
    (SMA_200 (List.replicate 200 (1 : ℚ))).getD 199 EF.nan
      = EF.val ((((List.replicate 200 (1 : ℚ)).drop (199 + 1 - 200)).take 200).sum / 200) :=
  ⟨((C1_sma_window (List.replicate 200 1) 0 (by norm_num)).1.1 (by norm_num)).1,
    (C1_sma_window (List.replicate 200 1) 199 (by norm_num)).2.2 (by norm_num)⟩

/-- C2: for every symbol partition, MACD is defined at every index from 0 on,
with `macd[0] = 0`, `macd[i] = ema12[i] - ema26[i]`, and each EMA satisfying the
seeded recursion `ema[0] = close[0]`, `ema[i] = a*close[i] + (1-a)*ema[i-1]`
with `a = 2/13` for span 12 and `a = 2/27` for span 26. -/
theorem C2_macd_ema (xs : List ℚ) (hne : xs ≠ []) :
    (MACD xs).length = xs.length ∧
    (MACD xs).getD 0 0 = 0 ∧
    (∀ i, i < xs.length →
      (MACD xs).getD i 0 = (ema 12 xs).getD i 0 - (ema 26 xs).getD i 0) ∧
    (ema 12 xs).getD 0 0 = xs.getD 0 0 ∧
    (ema 26 xs).getD 0 0 = xs.getD 0 0 ∧
    (∀ i, i + 1 < xs.length →
      (ema 12 xs).getD (i + 1) 0
        = 2 / 13 * xs.getD (i + 1) 0 + (1 - 2 / 13) * (ema 12 xs).getD i 0) ∧
    (∀ i, i + 1 < xs.length →
      (ema 26 xs).getD (i + 1) 0
        = 2 / 27 * xs.getD (i + 1) 0 + (1 - 2 / 27) * (ema 26 xs).getD i 0) := by
  have h0 : 0 < xs.length := List.length_pos.mpr hne
  refine ⟨length_MACD xs, ?m0, fun i hi => MACD_getD xs i hi, ema_getD_zero 12 xs hne,
    ema_getD_zero 26 xs hne, ?e12, ?e26⟩
  · rw [MACD_getD xs 0 h0, ema_getD_zero 12 xs hne, ema_getD_zero 26 xs hne, sub_self]
  · intro i hi
    rw [ema_getD_succ 12 xs i hi]
    norm_num
  · intro i hi
    rw [ema_getD_succ 26 xs i hi]
    norm_num

/-- Witness for C2 on closes `[10, 20]`: `macd[1] = ema12[1] - ema26[1]` and
`ema12[1] = 2/13 * 20 + (1 - 2/13) * 10`. -/
theorem C2_macd_ema_witness :
    (MACD [(10 : ℚ), 20]).getD 1 0
      = (ema 12 [(10 : ℚ), 20]).getD 1 0 - (ema 26 [(10 : ℚ), 20]).getD 1 0 ∧
    (ema 12 [(10 : ℚ), 20]).getD 1 0 = 2 / 13 * 20 + (1 - 2 / 13) * 10 :=
  ⟨(C2_macd_ema [10, 20] (by simp)).2.2.1 1 (by norm_num), by
    have h := (C2_macd_ema [10, 20] (by simp)).2.2.2.2.2.1 0 (by norm_num)
    simpa [ema] using h⟩

/-- C3: RSI-14 follows the spec formula: the output is the NaN sentinel for
`i < 14` (no delta at index 0, and fewer than 14 deltas before index 14), and
for `i ≥ 14` equals `100 - 100/(1 + rs)` with `rs = avg_gain / avg_loss`, where
`avg_gain`/`avg_loss` are the simple rolling means of `max(d, 0)` and
`max(-d, 0)` over the trailing 14 deltas `d[j] = close[j] - close[j-1]`. -/
theorem C3_rsi_formula (xs : List ℚ) (i : Nat) (hi : i < xs.length) :
    (compute_rsi xs).length = xs.length ∧
    (i < 14 → (compute_rsi xs).getD i EF.nan = EF.nan) ∧
    (14 ≤ i → (compute_rsi xs).getD i EF.nan
      = rsiFromAvgs (avgGain xs i) (avgLoss xs i)) := by
  refine ⟨length_compute_rsi xs, ?low, ?high⟩
  · intro h
    rw [compute_rsi_getD xs i hi, if_pos h]
  · intro h
    rw [compute_rsi_getD xs i hi, if_neg (by omega)]

/-- Witness for C3 on the strictly increasing series 0..15: NaN at index 3 and
the spec formula value at index 14. -/
theorem C3_rsi_formula_witness :
    (compute_rsi [(0 : ℚ), 1, 2, 3, 4, 5, 6, 7, 8, 9, 10, 11, 12, 13, 14, 15]).getD 3 EF.nan
      = EF.nan ∧
    (compute_rsi [(0 : ℚ), 1, 2, 3, 4, 5, 6, 7, 8, 9, 10, 11, 12, 13, 14, 15]).getD 14 EF.nan
      = rsiFromAvgs (avgGain [(0 : ℚ), 1, 2, 3, 4, 5, 6, 7, 8, 9, 10, 11, 12, 13, 14, 15] 14)
          (avgLoss [(0 : ℚ), 1, 2, 3, 4, 5, 6, 7, 8, 9, 10, 11, 12, 13, 14, 15] 14) :=
  ⟨(C3_rsi_formula _ 3 (by norm_num)).2.1 (by norm_num),
    (C3_rsi_formula _ 14 (by norm_num)).2.2 (by norm_num)⟩

/-- C4: at any index with a full 14-delta window where both averages are zero
(for instance 15 identical consecutive closes), the RSI output is the NaN
sentinel: not 100, not 0, and not any numeric value at all. -/
theorem C4_rsi_flat_nan (xs : List ℚ) (i : Nat) (h14 : 14 ≤ i) (hi : i < xs.length)
    (hg : avgGain xs i = 0) (hl : avgLoss xs i = 0) :
    (compute_rsi xs).getD i EF.nan = EF.nan ∧
    ∀ q : ℚ, (compute_rsi xs).getD i EF.nan ≠ EF.val q := by
  have e : (compute_rsi xs).getD i EF.nan = EF.nan := by
    rw [compute_rsi_getD xs i hi, if_neg (by omega), hg, hl, rsiFromAvgs]
    simp [EF.div, EF.add, EF.sub, EF.neg]
  exact ⟨e, fun q => by rw [e]; simp⟩

/-- Witness for C4: 15 identical closes give a NaN RSI (in particular not
`EF.val 100` and not `EF.val 0`) at index 14. -/
theorem C4_rsi_flat_nan_witness :
    (compute_rsi (List.replicate 15 (100 : ℚ))).getD 14 EF.nan = EF.nan ∧
    (compute_rsi (List.replicate 15 (100 : ℚ))).getD 14 EF.nan ≠ EF.val 0 :=
  ⟨(C4_rsi_flat_nan (List.replicate 15 100) 14 (by norm_num) (by norm_num)
      (by norm_num [avgGain, deltaWindow, deltas, List.replicate])
      (by norm_num [avgLoss, deltaWindow, deltas, List.replicate])).1,
    (C4_rsi_flat_nan (List.replicate 15 100) 14 (by norm_num) (by norm_num)
      (by norm_num [avgGain, deltaWindow, deltas, List.replicate])
      (by norm_num [avgLoss, deltaWindow, deltas, List.replicate])).2 0⟩

/-- C9: whenever both `avg_gain` and `avg_loss` are positive at an index with a
full window, the RSI output is a rational number in the closed interval
[0, 100]. -/
theorem C9_rsi_bounded (xs : List ℚ) (i : Nat) (h14 : 14 ≤ i) (hi : i < xs.length)
    (hg : 0 < avgGain xs i) (hl : 0 < avgLoss xs i) :
    ∃ r : ℚ, (compute_rsi xs).getD i EF.nan = EF.val r ∧ 0 ≤ r ∧ r ≤ 100 := by
  rw [compute_rsi_getD xs i hi, if_neg (by omega)]
  have hl0 : avgLoss xs i ≠ 0 := ne_of_gt hl
  have hratio : 0 < avgGain xs i / avgLoss xs i := div_pos hg hl
  have hden : (0 : ℚ) < 1 + avgGain xs i / avgLoss xs i := by linarith
  refine ⟨100 - 100 / (1 + avgGain xs i / avgLoss xs i),
    rsiFromAvgs_of_den _ _ hl0 (ne_of_gt hden), ?lo, ?hi2⟩
  · have hle : (100 : ℚ) / (1 + avgGain xs i / avgLoss xs i) ≤ 100 :=
      div_le_self (by norm_num) (by linarith)
    linarith
  · have hpos : (0 : ℚ) < 100 / (1 + avgGain xs i / avgLoss xs i) :=
      div_pos (by norm_num) hden
    linarith

/-- Witness for C9 on an alternating series: at index 14 both averages are
positive and the RSI value is a rational in [0, 100]. -/
theorem C9_rsi_bounded_witness :
    ∃ r : ℚ,
      (compute_rsi [(0 : ℚ), 1, 0, 1, 0, 1, 0, 1, 0, 1, 0, 1, 0, 1, 0, 1]).getD 14 EF.nan
        = EF.val r ∧ 0 ≤ r ∧ r ≤ 100 :=
  C9_rsi_bounded [(0 : ℚ), 1, 0, 1, 0, 1, 0, 1, 0, 1, 0, 1, 0, 1, 0, 1] 14
    (by norm_num) (by norm_num) (by norm_num [avgGain, deltaWindow, deltas])
    (by norm_num [avgLoss, deltaWindow, deltas])

/-- C10: at any index with a full 14-delta window where `avg_loss = 0` and
`avg_gain > 0`, the RSI output is exactly 100: the division by zero yields an
infinite `rs`, and `100 - 100/(1 + rs)` collapses to 100. -/
theorem C10_rsi_loss_zero (xs : List ℚ) (i : Nat) (h14 : 14 ≤ i) (hi : i < xs.length)
    (hl : avgLoss xs i = 0) (hg : 0 < avgGain xs i) :
    (compute_rsi xs).getD i EF.nan = EF.val 100 := by
  rw [compute_rsi_getD xs i hi, if_neg (by omega), hl, rsiFromAvgs]
  simp [EF.div, EF.add, EF.sub, EF.neg, hg.ne', hg]

/-- Witness for C10: on the strictly increasing series 0..15, `avg_loss` is zero
and `avg_gain` positive at index 14, and the RSI output is exactly 100. -/
theorem C10_rsi_loss_zero_witness :
    (compute_rsi [(0 : ℚ), 1, 2, 3, 4, 5, 6, 7, 8, 9, 10, 11, 12, 13, 14, 15]).getD 14 EF.nan
      = EF.val 100 :=
  C10_rsi_loss_zero [(0 : ℚ), 1, 2, 3, 4, 5, 6, 7, 8, 9, 10, 11, 12, 13, 14, 15] 14
    (by norm_num) (by norm_num) (by norm_num [avgLoss, deltaWindow, deltas])
    (by norm_num [avgGain, deltaWindow, deltas])

/-- C5: the indicator columns of symbol `S` depend only on `S`'s own records:
any two tables that agree on the subsequence of `S`-rows (for example, one
obtained from the other by inserting rows of other symbols and re-sorting)
produce identical `SMA_50`, `SMA_200`, `RSI` and `MACD` values on `S`'s rows. -/
theorem C5_symbol_independence (t1 t2 : List Row) (S : String)
    (h : t1.filter (fun r => r.symbol == S) = t2.filter (fun r => r.symbol == S)) :
    restrictVals t1 (SMA50col t1) S = restrictVals t2 (SMA50col t2) S ∧
    restrictVals t1 (SMA200col t1) S = restrictVals t2 (SMA200col t2) S ∧
    restrictVals t1 (RSIcol t1) S = restrictVals t2 (RSIcol t2) S ∧
    restrictVals t1 (MACDcol t1) S = restrictVals t2 (MACDcol t2) S := by
  have hcl : symbolCloses t1 S = symbolCloses t2 S := by
    rw [symbolCloses, symbolCloses, h]
  have hlen : (t1.filter fun r => r.symbol == S).length
      = (t2.filter fun r => r.symbol == S).length := by rw [h]
  have key : ∀ f : List ℚ → List EF,
      restrictVals t1 (transform f t1) S = restrictVals t2 (transform f t2) S := by
    intro f
    rw [restrict_transform, restrict_transform, hcl, hlen]
  refine ⟨key SMA_50, key SMA_200, key (fun xs => compute_rsi xs), ?macd⟩
  simp only [MACDcol, ema12col, ema26col]
  rw [restrict_zipWith t1 _ _ S (length_transform _ t1) (length_transform _ t1),
    restrict_zipWith t2 _ _ S (length_transform _ t2) (length_transform _ t2),
    key (fun xs => (ema 12 xs).map EF.val), key (fun xs => (ema 26 xs).map EF.val)]

/-- Witness for C5: inserting a `B` row between two `A` rows leaves the `SMA_50`
values on the `A` rows unchanged. -/
theorem C5_symbol_independence_witness :
    restrictVals ([⟨"A", 0, 1⟩, ⟨"B", 0, 5⟩, ⟨"A", 1, 2⟩] : List Row)
        (SMA50col [⟨"A", 0, 1⟩, ⟨"B", 0, 5⟩, ⟨"A", 1, 2⟩]) "A"
      = restrictVals ([⟨"A", 0, 1⟩, ⟨"A", 1, 2⟩] : List Row)
          (SMA50col [⟨"A", 0, 1⟩, ⟨"A", 1, 2⟩]) "A" :=
  (C5_symbol_independence [⟨"A", 0, 1⟩, ⟨"B", 0, 5⟩, ⟨"A", 1, 2⟩]
    [⟨"A", 0, 1⟩, ⟨"A", 1, 2⟩] "A" (by decide)).1

/-- C6: the filter returns exactly the rows whose symbol is selected and whose
date is within the inclusive range; it is a sublist of the table (the table
itself is untouched — the operation is a pure function of it), and when nothing
matches, the result is the empty view, not an error. -/
theorem C6_filter_rows (t : List Row) (symbols : List String) (a b : Int) :
    (∀ r, r ∈ filtered_df t symbols a b ↔
        r ∈ t ∧ r.symbol ∈ symbols ∧ a ≤ r.date ∧ r.date ≤ b) ∧
    (filtered_df t symbols a b).Sublist t ∧
    ((∀ r ∈ t, ¬(r.symbol ∈ symbols ∧ a ≤ r.date ∧ r.date ≤ b)) →
      filtered_df t symbols a b = []) := by
  refine ⟨?mem, List.filter_sublist t, ?empty⟩
  · intro r
    simp [filtered_df, List.mem_filter, and_assoc]
  · intro hnone
    rw [filtered_df, List.filter_eq_nil_iff]
    intro r hr
    have h2 := hnone r hr
    simp only [Bool.and_eq_true, decide_eq_true_eq]
    rintro ⟨⟨hc, h3⟩, h4⟩
    exact h2 ⟨by simpa using hc, h3, h4⟩

/-- Witness for C6: a matching row is kept (inclusive bounds), and a date range
matching nothing yields the empty view. -/
theorem C6_filter_rows_witness :
    (⟨"A", 5, 1⟩ : Row) ∈ filtered_df [⟨"A", 5, 1⟩] ["A"] 0 10 ∧
    filtered_df [⟨"A", 5, 1⟩] ["A"] 20 30 = [] :=
  ⟨((C6_filter_rows [⟨"A", 5, 1⟩] ["A"] 0 10).1 ⟨"A", 5, 1⟩).mpr
      ⟨by decide, by decide, by decide, by decide⟩,
    (C6_filter_rows [⟨"A", 5, 1⟩] ["A"] 20 30).2.2 (by decide)⟩

/-- C7 counterexample: the claim says that after forward-filling, only rows that
are still fully missing are dropped and rows with some present value are
retained. On the one-row table `[[some 1, none]]` forward-fill changes nothing,
the row has a present value, yet `dropna` (pandas default `how='any'`) drops
it: the preprocessed table is empty. -/
theorem C7_preprocess_counterexample :
    ffill 2 [[some (1 : ℚ), none]] = [[some (1 : ℚ), none]] ∧
    ([some (1 : ℚ), none].any fun c => c.isSome) = true ∧
    preprocess 2 [[some (1 : ℚ), none]] = [] := by
  refine ⟨?f, ?p, ?d⟩ <;> decide

/-- C7 (amended): during load preprocessing, missing values are forward-filled
per column first, and afterwards every row that still has any missing value is
dropped (only fully-present rows are retained); this runs globally, before the
sort by (symbol, date) and before any per-symbol grouping. -/
theorem C7_preprocess_ffill_dropna (ncols : Nat) (t : RawTable) :
    preprocess ncols t = (ffill ncols t).filter (fun r => r.all fun c => c.isSome) ∧
    (∀ r, r ∈ preprocess ncols t ↔ r ∈ ffill ncols t ∧ ∀ c ∈ r, c.isSome = true) ∧
    (∀ r ∈ preprocess ncols t, ∀ c ∈ r, c.isSome = true) := by
  refine ⟨rfl, ?mem, ?allsome⟩
  · intro r
    rw [preprocess, dropna, List.mem_filter]
    simp [List.all_eq_true]
  · intro r hr
    rw [preprocess, dropna, List.mem_filter] at hr
    have h2 := hr.2
    simp only [List.all_eq_true] at h2
    intro c hc
    exact h2 c hc

/-- Witness for C7 (amended) on a concrete two-row table: the second row, made
fully present by forward-fill, is retained and all of its cells are present. -/
theorem C7_preprocess_ffill_dropna_witness :
    [some (1 : ℚ), some 3] ∈ preprocess 2 [[some (1 : ℚ), some 2], [none, some 3]] ∧
    (some (1 : ℚ)).isSome = true :=
  ⟨by decide,
    (C7_preprocess_ffill_dropna 2 [[some (1 : ℚ), some 2], [none, some 3]]).2.2
      [some (1 : ℚ), some 3] (by decide) (some 1) (by decide)⟩

/-- C8: when no file is uploaded and no local default file exists, the script
halts with the user-visible warning message, and the run never produces a
processed table. -/
theorem C8_missing_input_halt :
    (∀ ncols, runApp ncols none none
        = Except.error "⚠️ Please upload a CSV file to continue.") ∧
    ∀ ncols t, runApp ncols none none ≠ Except.ok t := by
  constructor
  · intro ncols
    rfl
  · intro ncols t h
    rw [show runApp ncols none none
        = Except.error "⚠️ Please upload a CSV file to continue." from rfl] at h
    exact Except.noConfusion h

/-- Witness for C8 at a concrete column count: the run halts with the warning
and is not a successful load of any table. -/
theorem C8_missing_input_halt_witness :
    runApp 6 none none = Except.error "⚠️ Please upload a CSV file to continue." ∧
    runApp 6 none none ≠ Except.ok [] :=
  ⟨C8_missing_input_halt.1 6, C8_missing_input_halt.2 6 []⟩

end Claims

end StockMarket
